import Mathlib

/-!
Verification of the WordOfTheDay scraper core
(`wordoftheday/word_entry.py`, `wordoftheday/etymology_entry.py`,
`wordoftheday/email_sender.py`) against its natural-language specification.

The HTML documents handed to the extractors are modelled as an inductive
tree `Node` mirroring the BeautifulSoup parse tree as the code consumes it:
a node is either a text fragment (a `NavigableString`) or an element with a
tag name, an optional `id` attribute, a (multi-valued) `class` attribute and
a list of children.  BeautifulSoup's `find`/`find_all`/`select_one` become
document-order searches over the descendants of a node, `.text`,
`get_text(strip=True)` and `get_text(separator=" ", strip=True)` become the
corresponding flattenings of the text leaves, and the Python string
operations used by the code (`strip`, `replace`, `split`, `in`, `endswith`,
slicing, `str.isalpha`) are given explicit executable models over `List Char`
so that every definition evaluates inside the kernel.

Fallible extraction (`ValueError` in Python) is modelled with
`Except String`, carrying the exact message raised by the code.
-/

namespace WordOfTheDay

/-! ### Python string primitives, modelled over `List Char` -/

/-- Whitespace as stripped by Python's `str.strip()`; the model covers the
ASCII whitespace characters (space, tab, CR, LF) that occur in the inputs. -/
def pyIsSpace (c : Char) : Bool :=
  c.isWhitespace

/-- `str.strip()` on the underlying character list: drop whitespace from
both ends. -/
def stripChars (l : List Char) : List Char :=
  ((l.dropWhile pyIsSpace).reverse.dropWhile pyIsSpace).reverse

/-- Python `s.strip()`. -/
def pyStrip (s : String) : String :=
  ⟨stripChars s.data⟩

/-- Python `str.isalpha` on the Basic Latin and Latin-1 range (the model
treats code points above U+00FF as non-alphabetic; the Latin-1 block is
covered faithfully, in particular the superscript digit U+00B9 is not
alphabetic). -/
def pyIsAlpha (c : Char) : Bool :=
  let n := c.toNat
  c.isAlpha || n == 0xAA || n == 0xB5 || n == 0xBA ||
    (0xC0 ≤ n && n ≤ 0xD6) || (0xD8 ≤ n && n ≤ 0xF6) || (0xF8 ≤ n && n ≤ 0xFF)

/-- The character filter of `WordEntry.from_html`: keep a character iff it
is alphabetic, a hyphen, or an apostrophe (code point 39). -/
def keepWordChar (c : Char) : Bool :=
  pyIsAlpha c || c == '-' || c.toNat == 39

/-- `"".join(c for c in word if ...)` applied after `strip()`: the headword
sanitization of `WordEntry.from_html`. -/
def sanitizeWord (s : String) : String :=
  ⟨(pyStrip s).data.filter keepWordChar⟩

/-- `str.replace("–", "-")`: the pattern is the single character U+2013, so
the replacement is a character-wise map. -/
def normalizeDash (c : Char) : Char :=
  if c == '–' then '-' else c

/-- Python `s.split(sep)` for a single-character separator: empty fields are
kept, and the empty string splits to `[""]`. -/
def splitChar (sep : Char) : List Char → List (List Char)
  | [] => [[]]
  | c :: cs =>
    if c == sep then
      [] :: splitChar sep cs
    else
      match splitChar sep cs with
      | [] => [[c]]
      | r :: rs => (c :: r) :: rs

/-- Python `pat in s` (substring containment) on character lists. -/
def containsSub (pat : List Char) : List Char → Bool
  | [] => pat.isEmpty
  | c :: cs => List.isPrefixOf pat (c :: cs) || containsSub pat cs

/-- Python `s.endswith(pat)`. -/
def pyEndsWith (s pat : String) : Bool :=
  List.isSuffixOf pat.data s.data

/-- Python `s[: -len(pat)]` (character slicing). -/
def pyDropSuffix (s pat : String) : String :=
  ⟨s.data.take (s.data.length - pat.data.length)⟩

/-- Python's `<` on strings: lexicographic comparison by code point. -/
def charsLt : List Char → List Char → Bool
  | [], [] => false
  | [], _ :: _ => true
  | _ :: _, [] => false
  | a :: as, b :: bs =>
    if a.toNat < b.toNat then true
    else if b.toNat < a.toNat then false
    else charsLt as bs

/-- Python's `<` on strings. -/
def strLt (s t : String) : Bool :=
  charsLt s.data t.data

/-- Insert a string into an already ascending list, before the first element
it does not exceed. -/
def insertAsc (s : String) : List String → List String
  | [] => [s]
  | t :: ts => if strLt t s then t :: insertAsc s ts else s :: t :: ts

/-- Python `sorted` on a list of (distinct) strings: the unique ascending
reordering under code-point lexicographic comparison. -/
def sortStrings : List String → List String
  | [] => []
  | s :: ss => insertAsc s (sortStrings ss)

/-- `String.intercalate`, re-implemented so that it evaluates by `rfl`. -/
def joinWith (sep : String) : List String → String
  | [] => ""
  | s :: ss => s ++ String.join (ss.map (fun t => sep ++ t))

/-! ### The BeautifulSoup parse tree, as consumed by the code -/

/-- An HTML node: a text fragment, or an element with tag name, optional
`id`, `class` list and children. -/
inductive Node where
  | text : String → Node
  | elem : String → Option String → List String → List Node → Node

mutual

/-- All text fragments below a node, in document order
(`find_all(string=True)` yields exactly these). -/
def texts : Node → List String
  | .text s => [s]
  | .elem _ _ _ cs => textsList cs

def textsList : List Node → List String
  | [] => []
  | c :: cs => texts c ++ textsList cs

end

/-- BeautifulSoup `.text` / `get_text()`: concatenation of all text
fragments below the node. -/
def nodeText (n : Node) : String :=
  String.join (texts n)

/-- BeautifulSoup `get_text(strip=True)`: each fragment is stripped (empty
fragments drop out) and the results are concatenated. -/
def getTextStrip (n : Node) : String :=
  String.join ((texts n).map pyStrip)

/-- BeautifulSoup `get_text(separator=" ", strip=True)`: stripped, non-empty
fragments joined by single spaces. -/
def getTextSpaceStrip (n : Node) : String :=
  joinWith " " (((texts n).map pyStrip).filter (fun s => s ≠ ""))

mutual

/-- All descendants of a node (the node itself excluded), in document
order: this is the search space of BeautifulSoup `find` / `find_all`. -/
def descendants : Node → List Node
  | .text _ => []
  | .elem _ _ _ cs => descendantsList cs

def descendantsList : List Node → List Node
  | [] => []
  | c :: cs => c :: (descendants c ++ descendantsList cs)

end

/-- `find_all(pred)`: all matching descendants in document order. -/
def findAll (p : Node → Bool) (n : Node) : List Node :=
  (descendants n).filter p

/-- `find(pred)`: the first matching descendant, or `None`. -/
def findFirst (p : Node → Bool) (n : Node) : Option Node :=
  (findAll p n).head?

/-- Does an element carry the given class (multi-valued `class` matching,
as in `class_=...` / `attrs={"class": ...}`)? -/
def hasClass (c : String) : Node → Bool
  | .text _ => false
  | .elem _ _ cls _ => cls.contains c

/-- Does an element have the given tag name? -/
def nameIs (nm : String) : Node → Bool
  | .text _ => false
  | .elem n _ _ _ => n == nm

/-- Does an element have the given `id` attribute? -/
def idIs (i : String) : Node → Bool
  | .text _ => false
  | .elem _ idv _ _ => idv == some i

/-- `find(name, class_=c)`. -/
def findNameClass (nm c : String) (n : Node) : Option Node :=
  findFirst (fun d => nameIs nm d && hasClass c d) n

/-- `find_all(name, class_=c)`. -/
def findAllNameClass (nm c : String) (n : Node) : List Node :=
  findAll (fun d => nameIs nm d && hasClass c d) n

/-- `find(name, id=i)` / `find(name, attrs={"id": i})`. -/
def findNameId (nm i : String) (n : Node) : Option Node :=
  findFirst (fun d => nameIs nm d && idIs i d) n

/-- `find(name)` with no attribute filter. -/
def findName (nm : String) (n : Node) : Option Node :=
  findFirst (nameIs nm) n

mutual

/-- `soup.select_one("h1.headword-group .headword")`: the first element in
document order carrying class `headword` that has a strict ancestor `h1`
with class `headword-group`.  The flag records whether such an ancestor has
been passed. -/
def findHeadword (inside : Bool) (n : Node) : Option Node :=
  match n with
  | .text _ => none
  | .elem nm idv cls cs =>
    if inside && cls.contains "headword" then
      some (.elem nm idv cls cs)
    else
      findHeadwordList (inside || (nm == "h1" && cls.contains "headword-group")) cs

def findHeadwordList (inside : Bool) : List Node → Option Node
  | [] => none
  | c :: cs =>
    match findHeadword inside c with
    | some r => some r
    | none => findHeadwordList inside cs

end

/-! ### `word_entry.py` -/

/-- The `Definition` dataclass. -/
structure Definition where
  sense_number : String
  definition_text : String
  date_range : Option (String × String)
  examples : List (String × String × String)
  subject_tags : List String
deriving Repr, DecidableEq

/-- The `WordEntry` dataclass (`etymology` carries the Python default
`""`). -/
structure WordEntry where
  word : String
  definitions : List Definition
  etymology : String := ""
deriving Repr, DecidableEq

/-- `text.strip().replace("–", "-").split("-")` on the underlying character
list. -/
def dateFields (l : List Char) : List String :=
  (splitChar '-' ((stripChars l).map normalizeDash)).map fun x => (⟨x⟩ : String)

/-- `date_div.text.strip().replace("–", "-").split("-")` followed by
`(dates[0], dates[1] if len(dates) > 1 else "")`, factored out of
`_get_definition_from_sense`. -/
def parseDateRange (s : String) : String × String :=
  let dates := dateFields s.data
  (dates.headD "", dates.getD 1 "")

/-- The body of the quotation loop of `_get_definition_from_sense`: a
quotation contributes its `(date, quote, citation)` triple exactly when its
date `div`, quotation `blockquote` and citation `cite` are all found
(`if all([date, text, citation])`). -/
def exampleOfQuotation (q : Node) : Option (String × String × String) :=
  match findNameClass "div" "quotation-date" q,
        findNameClass "blockquote" "quotation-text" q,
        findNameClass "cite" "citation-text" q with
  | some d, some t, some c =>
    some (pyStrip (nodeText d), pyStrip (nodeText t), pyStrip (nodeText c))
  | _, _, _ => none

/-- `WordEntry._get_definition_from_sense`:  extract a `Definition` from a
sense element, or `none` when the definition `div` is missing. -/
def getDefinitionFromSense (sense : Node) : Option Definition :=
  let sense_num :=
    match findNameClass "div" "item-enumerator" sense with
    | some d => pyStrip (nodeText d)
    | none => ""
  match findNameClass "div" "definition" sense with
  | none => none
  | some def_div =>
    let def_text := pyStrip (nodeText def_div)
    let date_range :=
      match findNameClass "div" "daterange-container" sense with
      | none => none
      | some date_div => some (parseDateRange (nodeText date_div))
    let examples := (findAllNameClass "li" "quotation" sense).filterMap exampleOfQuotation
    let tags :=
      match findNameClass "div" "tags" sense with
      | none => []
      | some tags_div =>
        (findAllNameClass "a" "tag" tags_div).map fun t => pyStrip (nodeText t)
    some { sense_number := sense_num, definition_text := def_text,
           date_range := date_range, examples := examples, subject_tags := tags }

mutual

/-- The recursive `process_element` of `WordEntry.from_html`: walk the tree
in document order and record, first occurrence winning, each element tagged
`sense` that exposes a definition `div`, keyed by the stripped definition
text.  The insertion-ordered Python `dict` becomes an association list. -/
def processElement (m : List (String × Node)) (n : Node) : List (String × Node) :=
  match n with
  | .text _ => m
  | .elem nm idv cls cs =>
    let m1 :=
      if cls.contains "sense" then
        match findNameClass "div" "definition" (.elem nm idv cls cs) with
        | some def_div =>
          let t := pyStrip (nodeText def_div)
          if (m.map Prod.fst).contains t then m else m ++ [(t, .elem nm idv cls cs)]
        | none => m
      else m
    processElementList m1 cs

def processElementList (m : List (String × Node)) : List Node → List (String × Node)
  | [] => m
  | c :: cs => processElementList (processElement m c) cs

end

/-- `definition_map[text]`: association-list lookup. -/
def mapLookup (m : List (String × Node)) (k : String) : Option Node :=
  (m.find? (fun p => p.1 == k)).map Prod.snd

/-- `WordEntry.from_html`.  `ValueError` becomes `Except.error` with the
message raised by the code. -/
def WordEntry.fromHtml (soup : Node) : Except String WordEntry :=
  match findHeadword false soup with
  | none => .error "Could not find headword"
  | some word_elem =>
    let word := sanitizeWord (nodeText word_elem)
    match findNameId "section" "meaning_and_use" soup with
    | none => .error "Could not find meanings section"
    | some meaning_section =>
      let dmap := processElement [] meaning_section
      let definitions := (sortStrings (dmap.map Prod.fst)).filterMap fun t =>
        (mapLookup dmap t).bind getDefinitionFromSense
      .ok { word := word, definitions := definitions }

/-! ### `etymology_entry.py` -/

/-- The `EtymologyEntry` dataclass. -/
structure EtymologyEntry where
  etymology_summary : String
  etymons : List (String × String)
  full_etymology : String
deriving Repr, DecidableEq

mutual

/-- Scan a node's subtree for the first text fragment (in document order,
as `find_all(string=True)` yields them) containing the marker `"Etymon"`,
and return that fragment's parent element (`element.parent`).  `pnt` is the
element directly containing the children currently scanned. -/
def scanEtymon (pnt : Node) (c : Node) : Option Node :=
  match c with
  | .text s => if containsSub "Etymon".data s.data then some pnt else none
  | .elem nm idv cls gs => scanEtymonList (.elem nm idv cls gs) gs

def scanEtymonList (pnt : Node) : List Node → Option Node
  | [] => none
  | c :: cs =>
    match scanEtymon pnt c with
    | some r => some r
    | none => scanEtymonList pnt cs

end

/-- The `for element in summary_div.find_all(string=True): ... break` loop
of `_extract_etymons`: the parent of the first `"Etymon"`-marked text
fragment below `summary_div`, if any. -/
def firstEtymonParent (summary_div : Node) : Option Node :=
  match summary_div with
  | .text _ => none
  | .elem nm idv cls cs => scanEtymonList (.elem nm idv cls cs) cs

/-- `EtymologyEntry._extract_etymons`: pair the `language-name` spans with
the `foreign-form` spans of the etymon container by position (`zip`
truncates to the shorter list); no container, no pairs. -/
def extractEtymons (summary_div : Node) : List (String × String) :=
  match firstEtymonParent summary_div with
  | none => []
  | some etymon_element =>
    let languages := findAllNameClass "span" "language-name" etymon_element
    let forms := findAllNameClass "span" "foreign-form" etymon_element
    (languages.zip forms).map fun p => (getTextStrip p.1, getTextStrip p.2)

/-- `EtymologyEntry.from_html`. -/
def EtymologyEntry.fromHtml (soup : Node) : Except String EtymologyEntry :=
  match findNameId "section" "etymology" soup with
  | none => .error "Could not find etymology section"
  | some etymology_section =>
    match findNameClass "div" "etymology-summary" etymology_section with
    | none => .error "Could not find etymology summary"
    | some etymology_summary_div =>
      match findName "div" etymology_summary_div with
      | none => .error "Could not find etymology summary text"
      | some summary_text_div =>
        let etymology_summary := getTextStrip summary_text_div
        let etymons := extractEtymons etymology_summary_div
        match findNameId "div" "main_etymology_complete" etymology_section with
        | none => .error "Could not find main etymology"
        | some etymology_div =>
          let fe := getTextSpaceStrip etymology_div
          let full_etymology :=
            if pyEndsWith fe "Show less" then pyStrip (pyDropSuffix fe "Show less") else fe
          .ok { etymology_summary := etymology_summary, etymons := etymons,
                full_etymology := full_etymology }

/-- `EtymologyEntry.format_for_email`. -/
def EtymologyEntry.formatForEmail (e : EtymologyEntry) : String :=
  let s1 := "ETYMOLOGY SUMMARY:\n" ++ e.etymology_summary
  let s2 :=
    if e.etymons.isEmpty then s1
    else
      s1 ++ "ETYMONS:\n" ++
        String.join (e.etymons.map fun p => p.1 ++ ": " ++ p.2 ++ "\n") ++ "\n"
  s2 ++ "FULL ETYMOLOGY:\n" ++ e.full_etymology ++ "\n"

/-! ### `email_sender.py` -/

/-- `format_word_entry_email`: build the list of body fragments and join
them with newlines. -/
def formatWordEntryEmail (word_entry : WordEntry) (etymology_entry : EtymologyEntry) :
    String :=
  let head := ["Word of the Day: " ++ word_entry.word, "", "DEFINITIONS:"]
  let defs := word_entry.definitions.flatMap fun d =>
    ["\n" ++ d.sense_number ++ " " ++ d.definition_text] ++
      (if d.examples.isEmpty then []
       else
         ["\nExamples:"] ++ d.examples.flatMap fun e =>
           ["(" ++ e.1 ++ "):", "\"" ++ e.2.1 ++ "\"", "- " ++ e.2.2 ++ "\n"])
  joinWith "\n" (head ++ defs ++ [etymology_entry.formatForEmail])

/-- The individual lines of an email body (Python `body.split("\n")`). -/
def bodyLines (body : String) : List String :=
  (splitChar '\n' body.data).map fun l => (⟨l⟩ : String)

/-! ### Spec-side definitions, for comparison with the extractor -/

mutual

/-- The stripped definition texts of the `sense` elements of a subtree, in
document order, the node itself included — one entry per sense element
exposing a definition `div`, duplicates kept. -/
def rawSenseKeys (n : Node) : List String :=
  match n with
  | .text _ => []
  | .elem nm idv cls cs =>
    (if cls.contains "sense" then
      match findNameClass "div" "definition" (.elem nm idv cls cs) with
      | some def_div => [pyStrip (nodeText def_div)]
      | none => []
    else []) ++ rawSenseKeysList cs

def rawSenseKeysList : List Node → List String
  | [] => []
  | c :: cs => rawSenseKeys c ++ rawSenseKeysList cs

end

/-- First-seen de-duplication: keep each string's first occurrence, in
order, appending to the accumulator. -/
def mergeKeys (acc : List String) : List String → List String
  | [] => acc
  | k :: ks => if acc.contains k then mergeKeys acc ks else mergeKeys (acc ++ [k]) ks

/-- The distinct definition texts of a meanings section in document order,
de-duplicated first occurrence first: the "document order" of the claim. -/
def docOrderKeys (n : Node) : List String :=
  mergeKeys [] (rawSenseKeys n)

/-- Modelled from the spec: the source contains no code reading the entry
page's etymology blurb (`WordEntry.from_html` never assigns the `etymology`
field).  Per the spec, "locate the etymology-blurb container, if present;
extract its text, trim a trailing 'Show less' suffix and a leading '< '
citation marker if present; default to empty string if the container is
missing" — the container being the entry page's `div` of class
`etymology`. -/
def specEtymologyBlurb (soup : Node) : Option String :=
  (findNameClass "div" "etymology" soup).map fun d =>
    let t := pyStrip (nodeText d)
    let t1 := if pyEndsWith t "Show less" then pyStrip (pyDropSuffix t "Show less") else t
    if List.isPrefixOf "< ".data t1.data then (⟨t1.data.drop 2⟩ : String) else t1

/-- Is a quotation's full (date, quote, citation) triple present?  (The
`all([date, text, citation])` test of `_get_definition_from_sense`.) -/
def quotationIncluded (q : Node) : Bool :=
  (findNameClass "div" "quotation-date" q).isSome &&
    (findNameClass "blockquote" "quotation-text" q).isSome &&
    (findNameClass "cite" "citation-text" q).isSome

/-- The (date, quote, citation) triple of a quotation whose three parts are
present (defaults are irrelevant under `quotationIncluded`). -/
def quotationTriple (q : Node) : String × String × String :=
  (pyStrip (nodeText ((findNameClass "div" "quotation-date" q).getD (Node.text ""))),
   pyStrip (nodeText ((findNameClass "blockquote" "quotation-text" q).getD (Node.text ""))),
   pyStrip (nodeText ((findNameClass "cite" "citation-text" q).getD (Node.text ""))))

/-! ### Concrete HTML inputs -/

/-- Element without `id`. -/
def el (nm : String) (cls : List String) (cs : List Node) : Node :=
  .elem nm none cls cs

/-- Element with `id`. -/
def elId (nm i : String) (cs : List Node) : Node :=
  .elem nm (some i) [] cs

/-- Text fragment. -/
def txt (s : String) : Node :=
  .text s

/-- A headword group whose headword reads `w`. -/
def headwordGroup (w : String) : Node :=
  el "h1" ["headword-group"] [el "span" ["headword"] [txt w]]

/-- A sense element with an enumerator, a definition text and no further
structure. -/
def simpleSense (num defText : String) : Node :=
  el "li" ["item", "sense"]
    [el "div" ["item-enumerator"] [txt num],
     el "div" ["definition"] [txt defText]]

/-- Two senses in document order "zebra" before "apple": lexicographic and
document order disagree. -/
def twoSensePage : Node :=
  el "html" []
    [headwordGroup "word",
     elId "section" "meaning_and_use"
       [el "ol" ["s4-list"] [simpleSense "1." "zebra", simpleSense "2." "apple"]]]

/-- The meanings section of `twoSensePage`. -/
def twoSenseMeaning : Node :=
  elId "section" "meaning_and_use"
    [el "ol" ["s4-list"] [simpleSense "1." "zebra", simpleSense "2." "apple"]]

/-- A page whose single sense carries a definition `div` holding only
whitespace. -/
def blankDefPage : Node :=
  el "html" []
    [headwordGroup "word",
     elId "section" "meaning_and_use"
       [el "ol" ["s4-list"] [el "li" ["item", "sense"] [el "div" ["definition"] [txt "   "]]]]]

/-- A page whose headword text strips to nothing under sanitization. -/
def digitHeadwordPage : Node :=
  el "html" []
    [headwordGroup "123",
     elId "section" "meaning_and_use" [el "ol" ["s4-list"] []]]

/-- A page carrying an etymology-blurb container with non-empty text. -/
def blurbPage : Node :=
  el "html" []
    [headwordGroup "shrapnel",
     el "div" ["etymology"] [txt "From Henry Shrapnel"],
     elId "section" "meaning_and_use" [el "ol" ["s4-list"] []]]

/-- A page with a meanings section but no headword element. -/
def noHeadwordPage : Node :=
  el "html" []
    [elId "section" "meaning_and_use" [el "ol" ["s4-list"] [simpleSense "1." "a def"]]]

/-- A page with a headword but no meanings section. -/
def noMeaningPage : Node :=
  el "html" [] [headwordGroup "word"]

/-- A page with no sections at all. -/
def emptyPage : Node :=
  el "html" [] []

/-- The test fixture page: headword `shrapnel¹` (trailing footnote glyph)
and one fully populated sense. -/
def shrapnelPage : Node :=
  el "html" []
    [headwordGroup "shrapnel¹",
     elId "section" "meaning_and_use"
       [el "ol" ["s4-list"]
         [el "li" ["item", "sense"]
           [el "div" ["item-enumerator"] [txt "1."],
            el "div" ["definition"] [txt "A type of artillery shell"],
            el "div" ["daterange-container"] [txt "1806-"],
            el "ol" ["quotation-container"]
              [el "li" ["quotation"]
                [el "div" ["quotation-date"] [txt "1806"],
                 el "blockquote" ["quotation-text"] [txt "The shells burst."],
                 el "cite" ["citation-text"] [txt "Military Journal"]],
               el "li" ["quotation"]
                [el "div" ["quotation-date"] [txt "1810"],
                 el "blockquote" ["quotation-text"] [txt "No citation here."]]]]]]]

/-- The sense element of `shrapnelPage` (one complete quotation, one
quotation lacking its citation). -/
def shrapnelSense : Node :=
  el "li" ["item", "sense"]
    [el "div" ["item-enumerator"] [txt "1."],
     el "div" ["definition"] [txt "A type of artillery shell"],
     el "div" ["daterange-container"] [txt "1806-"],
     el "ol" ["quotation-container"]
       [el "li" ["quotation"]
         [el "div" ["quotation-date"] [txt "1806"],
          el "blockquote" ["quotation-text"] [txt "The shells burst."],
          el "cite" ["citation-text"] [txt "Military Journal"]],
        el "li" ["quotation"]
         [el "div" ["quotation-date"] [txt "1810"],
          el "blockquote" ["quotation-text"] [txt "No citation here."]]]]

/-- An etymon container holding two language names but only one foreign
form. -/
def etymonContainer : Node :=
  el "div" []
    [txt "Etymons: see below.",
     el "span" ["language-name"] [txt "Latin"],
     el "span" ["language-name"] [txt "Greek"],
     el "span" ["foreign-form"] [txt "testum"]]

/-- An etymology-summary subsection whose etymon container holds two
language names but only one foreign form. -/
def unevenSummaryDiv : Node :=
  el "div" ["etymology-summary"]
    [el "div" [] [txt "A borrowing from Latin."], etymonContainer]

/-- An etymology-summary subsection with no `"Etymon"` marker anywhere. -/
def markerlessSummaryDiv : Node :=
  el "div" ["etymology-summary"] [el "div" [] [txt "A borrowing from Latin."]]

/-- The `WordEntry` of the formatter claim. -/
def emailWordEntry : WordEntry :=
  { word := "test",
    definitions :=
      [{ sense_number := "1.", definition_text := "A sample definition",
         date_range := none, examples := [("1500", "A test quote", "Test Author")],
         subject_tags := [] }] }

/-- The `EtymologyEntry` of the formatter claim. -/
def emailEtymologyEntry : EtymologyEntry :=
  { etymology_summary := "A borrowing from Latin",
    etymons := [("Latin", "testum")],
    full_etymology := "From Latin testum" }

/-! ### Theorems -/

/-- C2: formatting the email body for the given `WordEntry` and
`EtymologyEntry` yields each of the claimed literal lines except
`A borrowing from Latin`: the formatter omits the newline between the
etymology summary and the `ETYMONS:` header, so the summary shares its
line with that header. -/
theorem claim2_email_lines_eval :
    ("Word of the Day: test" ∈ bodyLines (formatWordEntryEmail emailWordEntry emailEtymologyEntry)) ∧
    ("1. A sample definition" ∈ bodyLines (formatWordEntryEmail emailWordEntry emailEtymologyEntry)) ∧
    ("\"A test quote\"" ∈ bodyLines (formatWordEntryEmail emailWordEntry emailEtymologyEntry)) ∧
    ("- Test Author" ∈ bodyLines (formatWordEntryEmail emailWordEntry emailEtymologyEntry)) ∧
    ("ETYMOLOGY SUMMARY:" ∈ bodyLines (formatWordEntryEmail emailWordEntry emailEtymologyEntry)) ∧
    ("FULL ETYMOLOGY:" ∈ bodyLines (formatWordEntryEmail emailWordEntry emailEtymologyEntry)) ∧
    ("A borrowing from Latin" ∉ bodyLines (formatWordEntryEmail emailWordEntry emailEtymologyEntry)) ∧
    ("A borrowing from LatinETYMONS:" ∈ bodyLines (formatWordEntryEmail emailWordEntry emailEtymologyEntry)) := by
  decide

/-- C6: word-entry extraction errors whenever the headword is missing (even
with a meanings section present) and whenever the `meaning_and_use` section
is missing; etymology extraction errors whenever no `section` with id
`etymology` exists.  No partial result is returned in these cases. -/
theorem claim6_structural_anchor_errors :
    (∀ soup, findHeadword false soup = none →
      WordEntry.fromHtml soup = .error "Could not find headword") ∧
    (∀ soup, findNameId "section" "meaning_and_use" soup = none →
      (WordEntry.fromHtml soup).isOk = false) ∧
    (∀ soup, findNameId "section" "etymology" soup = none →
      EtymologyEntry.fromHtml soup = .error "Could not find etymology section") := by
  refine ⟨?_, ?_, ?_⟩
  · intro soup h
    unfold WordEntry.fromHtml
    rw [h]
  · intro soup h
    unfold WordEntry.fromHtml
    split
    · rfl
    · rw [h]
      rfl
  · intro soup h
    unfold EtymologyEntry.fromHtml
    rw [h]

/-- Witness for C6 at concrete pages: a page with meanings but no headword,
a page with a headword but no meanings, and a page with no etymology
section. -/
theorem claim6_witness :
    WordEntry.fromHtml noHeadwordPage = .error "Could not find headword" ∧
    (WordEntry.fromHtml noMeaningPage).isOk = false ∧
    EtymologyEntry.fromHtml emptyPage = .error "Could not find etymology section" :=
  ⟨claim6_structural_anchor_errors.1 noHeadwordPage rfl,
   claim6_structural_anchor_errors.2.1 noMeaningPage rfl,
   claim6_structural_anchor_errors.2.2 emptyPage rfl⟩

/-- Mapping hyphens to en-dashes does not change which characters are
whitespace. -/
theorem pyIsSpace_hyphenToEn (c : Char) :
    pyIsSpace (if c == '-' then '–' else c) = pyIsSpace c := by
  by_cases h : c = '-'
  · subst h; rfl
  · simp [h]

/-- Stripping commutes with a character map that preserves whitespace. -/
theorem stripChars_map (f : Char → Char) (hf : ∀ c, pyIsSpace (f c) = pyIsSpace c)
    (l : List Char) : stripChars (l.map f) = (stripChars l).map f := by
  have hpf : pyIsSpace ∘ f = pyIsSpace := funext hf
  unfold stripChars
  rw [List.dropWhile_map, hpf, ← List.map_reverse, List.dropWhile_map, hpf, ← List.map_reverse]

/-- Dash normalization absorbs a prior hyphen-to-en-dash map. -/
theorem normalizeDash_hyphenToEn (c : Char) :
    normalizeDash (if c == '-' then '–' else c) = normalizeDash c := by
  by_cases h : c = '-'
  · subst h; rfl
  · simp [h]

/-- Date-field computation is invariant under writing the range with
en-dashes instead of hyphens. -/
theorem dateFields_enDash (l : List Char) :
    dateFields (l.map fun c => if c == '-' then '–' else c) = dateFields l := by
  unfold dateFields
  rw [stripChars_map _ pyIsSpace_hyphenToEn, List.map_map]
  have : (stripChars l).map (normalizeDash ∘ fun c => if c == '-' then '–' else c) =
      (stripChars l).map normalizeDash :=
    List.map_congr_left fun a _ => normalizeDash_hyphenToEn a
  rw [this]

/-- C8: `"1806-"` parses to `("1806", "")`, `"1806-1850"` parses to
`("1806", "1850")`, and a range written with en-dashes parses identically
to the same range written with hyphens. -/
theorem claim8_date_range_parsing :
    parseDateRange "1806-" = ("1806", "") ∧
    parseDateRange "1806-1850" = ("1806", "1850") ∧
    ∀ s : String,
      parseDateRange ⟨s.data.map fun c => if c == '-' then '–' else c⟩ = parseDateRange s := by
  refine ⟨by decide, by decide, ?_⟩
  intro s
  unfold parseDateRange
  rw [show (⟨s.data.map fun c => if c == '-' then '–' else c⟩ : String).data =
        s.data.map fun c => if c == '-' then '–' else c from rfl,
      dateFields_enDash]

/-- C10: the etymons list pairs the language-name spans with the
foreign-form spans of the etymon container index by index, truncating to
the shorter list, and is empty (without error) when no text fragment
contains the marker `"Etymon"`. -/
theorem claim10_etymons_pairing :
    (∀ summary_div, firstEtymonParent summary_div = none →
      extractEtymons summary_div = []) ∧
    (∀ summary_div p, firstEtymonParent summary_div = some p →
      extractEtymons summary_div =
        ((findAllNameClass "span" "language-name" p).zip
          (findAllNameClass "span" "foreign-form" p)).map
          (fun q => (getTextStrip q.1, getTextStrip q.2)) ∧
      (extractEtymons summary_div).length =
        min (findAllNameClass "span" "language-name" p).length
          (findAllNameClass "span" "foreign-form" p).length) := by
  constructor
  · intro sd h
    unfold extractEtymons
    rw [h]
  · intro sd p h
    unfold extractEtymons
    rw [h]
    exact ⟨rfl, by rw [List.length_map, List.length_zip]⟩

/-- Witness for C10: a summary with two language names and one foreign form
pairs exactly one etymon, and a marker-less summary yields no etymons. -/
theorem claim10_witness :
    (extractEtymons unevenSummaryDiv =
      ((findAllNameClass "span" "language-name" etymonContainer).zip
        (findAllNameClass "span" "foreign-form" etymonContainer)).map
        (fun q => (getTextStrip q.1, getTextStrip q.2)) ∧
     (extractEtymons unevenSummaryDiv).length =
      min (findAllNameClass "span" "language-name" etymonContainer).length
        (findAllNameClass "span" "foreign-form" etymonContainer).length) ∧
    extractEtymons markerlessSummaryDiv = [] :=
  ⟨claim10_etymons_pairing.2 unevenSummaryDiv etymonContainer rfl,
   claim10_etymons_pairing.1 markerlessSummaryDiv rfl⟩

/-- A quotation contributes exactly when its three parts are present, and
then contributes its triple. -/
theorem exampleOfQuotation_eq (q : Node) :
    exampleOfQuotation q =
      if quotationIncluded q then some (quotationTriple q) else none := by
  unfold exampleOfQuotation quotationIncluded quotationTriple
  cases h1 : findNameClass "div" "quotation-date" q <;>
    cases h2 : findNameClass "blockquote" "quotation-text" q <;>
      cases h3 : findNameClass "cite" "citation-text" q <;>
        simp

/-- `filterMap` of an if-some-else-none function is filter-then-map. -/
theorem filterMap_if_eq_filter_map {α β : Type} (p : α → Bool) (g : α → β) :
    ∀ l : List α,
      l.filterMap (fun a => if p a then some (g a) else none) = (l.filter p).map g := by
  intro l
  induction l with
  | nil => rfl
  | cons a l ih =>
    by_cases h : p a <;> simp [List.filterMap_cons, List.filter_cons, h, ih]

/-- C9: on any sense from which a `Definition` is extracted, the examples
are exactly the (date, quote, citation) triples of those quotations whose
three parts are all present, in document order; a quotation missing any
part is silently dropped. -/
theorem claim9_examples_iff :
    ∀ sense d, getDefinitionFromSense sense = some d →
      d.examples =
        ((findAllNameClass "li" "quotation" sense).filter quotationIncluded).map
          quotationTriple := by
  intro sense d h
  unfold getDefinitionFromSense at h
  cases hdef : findNameClass "div" "definition" sense with
  | none => rw [hdef] at h; exact absurd h (by simp)
  | some def_div =>
    rw [hdef] at h
    have hex : d.examples = (findAllNameClass "li" "quotation" sense).filterMap
        exampleOfQuotation := by
      cases h
      rfl
    rw [hex]
    have : (findAllNameClass "li" "quotation" sense).filterMap exampleOfQuotation =
        (findAllNameClass "li" "quotation" sense).filterMap
          (fun q => if quotationIncluded q then some (quotationTriple q) else none) := by
      apply List.filterMap_congr
      intro q _
      exact exampleOfQuotation_eq q
    rw [this, filterMap_if_eq_filter_map]

/-- Witness for C9 at the fixture sense: of its two quotations only the
complete one contributes, yielding the single triple. -/
theorem claim9_witness :
    (Definition.mk "1." "A type of artillery shell" (some ("1806", ""))
        [("1806", "The shells burst.", "Military Journal")] []).examples =
      ((findAllNameClass "li" "quotation" shrapnelSense).filter quotationIncluded).map
        quotationTriple :=
  claim9_examples_iff shrapnelSense _ rfl

/-- Inversion of a successful `WordEntry.fromHtml`: a headword element and
a meanings section were found, and the entry is assembled from them with
the default (empty) etymology. -/
theorem fromHtml_ok_inv (soup : Node) (e : WordEntry) (h : WordEntry.fromHtml soup = .ok e) :
    ∃ w ms, findHeadword false soup = some w ∧
      findNameId "section" "meaning_and_use" soup = some ms ∧
      e = { word := sanitizeWord (nodeText w),
            definitions := (sortStrings ((processElement [] ms).map Prod.fst)).filterMap
              (fun t => (mapLookup (processElement [] ms) t).bind getDefinitionFromSense),
            etymology := "" } := by
  unfold WordEntry.fromHtml at h
  cases hw : findHeadword false soup with
  | none => rw [hw] at h; exact absurd h (by simp)
  | some w =>
    rw [hw] at h
    cases hm : findNameId "section" "meaning_and_use" soup with
    | none => rw [hm] at h; exact absurd h (by simp)
    | some ms =>
      rw [hm] at h
      refine ⟨w, ms, rfl, rfl, ?_⟩
      cases h
      rfl

/-- C3 (amended): the `etymology` field of every successfully extracted
`WordEntry` is the empty string — `from_html` never reads the entry page's
etymology blurb. -/
theorem claim3_etymology_always_empty :
    ∀ soup e, WordEntry.fromHtml soup = .ok e → e.etymology = "" := by
  intro soup e h
  obtain ⟨w, ms, _, _, rfl⟩ := fromHtml_ok_inv soup e h
  rfl

/-- Witness for C3 (amended) at a page carrying a non-empty blurb. -/
theorem claim3_witness : (WordEntry.mk "shrapnel" [] "").etymology = "" :=
  claim3_etymology_always_empty blurbPage ⟨"shrapnel", [], ""⟩ rfl

/-- C3 counterexample: on a page whose etymology-blurb container holds the
text `From Henry Shrapnel`, extraction succeeds yet the entry's `etymology`
is the empty string, not the blurb text. -/
theorem claim3_counterexample :
    (WordEntry.fromHtml blurbPage).toOption.map WordEntry.etymology = some "" ∧
    specEtymologyBlurb blurbPage = some "From Henry Shrapnel" ∧
    ("" : String) ≠ "From Henry Shrapnel" :=
  ⟨rfl, rfl, by decide⟩

/-- A search fails when no descendant satisfies the predicate. -/
theorem findFirst_eq_none {p : Node → Bool} {n : Node}
    (h : ∀ d ∈ descendants n, p d = false) : findFirst p n = none := by
  unfold findFirst findAll
  have : (descendants n).filter p = [] := by
    rw [List.filter_eq_nil_iff]
    intro a ha
    simp [h a ha]
  rw [this]
  rfl

mutual

/-- A subtree containing no definition `div` contributes nothing to the
definition map. -/
theorem processElement_no_def (m : List (String × Node)) (n : Node)
    (h : ∀ d ∈ descendants n, (nameIs "div" d && hasClass "definition" d) = false) :
    processElement m n = m := by
  cases n with
  | text s => rfl
  | elem nm idv cls cs =>
    unfold processElement
    rw [show findNameClass "div" "definition" (Node.elem nm idv cls cs) = none from
      findFirst_eq_none h]
    have hrec := processElementList_no_def m cs h
    cases hc : cls.contains "sense" <;> simpa [hc] using hrec

/-- List version of `processElement_no_def`. -/
theorem processElementList_no_def (m : List (String × Node)) (cs : List Node)
    (h : ∀ d ∈ descendantsList cs, (nameIs "div" d && hasClass "definition" d) = false) :
    processElementList m cs = m := by
  cases cs with
  | nil => rfl
  | cons c cs =>
    unfold processElementList
    have h1 : ∀ d ∈ descendants c, (nameIs "div" d && hasClass "definition" d) = false := by
      intro d hd
      exact h d (by
        unfold descendantsList
        exact List.mem_cons_of_mem _ (List.mem_append_left _ hd))
    have h2 : ∀ d ∈ descendantsList cs, (nameIs "div" d && hasClass "definition" d) = false := by
      intro d hd
      exact h d (by
        unfold descendantsList
        exact List.mem_cons_of_mem _ (List.mem_append_right _ hd))
    rw [processElement_no_def m c h1]
    exact processElementList_no_def m cs h2

end

/-- C4 (amended): a sense with no definition `div` anywhere below it yields
no `Definition` (no placeholder), and such a subtree adds nothing to the
collected definition map; non-emptiness of `definition_text` is, however,
not guaranteed when the `div` is present (see the counterexample). -/
theorem claim4_missing_definition_dropped :
    (∀ sense, findNameClass "div" "definition" sense = none →
      getDefinitionFromSense sense = none) ∧
    (∀ m n, (∀ d ∈ descendants n, (nameIs "div" d && hasClass "definition" d) = false) →
      processElement m n = m) := by
  constructor
  · intro sense h
    unfold getDefinitionFromSense
    rw [h]
  · intro m n h
    exact processElement_no_def m n h

/-- Witness for C4 (amended): a sense holding only an enumerator yields no
`Definition` and leaves the map untouched. -/
theorem claim4_witness :
    getDefinitionFromSense (el "li" ["item", "sense"] [el "div" ["item-enumerator"] [txt "1."]]) =
      none ∧
    processElement [] (el "li" ["item", "sense"] [el "div" ["item-enumerator"] [txt "1."]]) =
      [] :=
  ⟨claim4_missing_definition_dropped.1 _ rfl,
   claim4_missing_definition_dropped.2 [] _ (by decide)⟩

/-- C4 counterexample: a sense whose definition `div` holds only whitespace
produces a `Definition` with empty `definition_text` — extraction succeeds
and the definitions list contains the empty text. -/
theorem claim4_counterexample :
    (WordEntry.fromHtml blankDefPage).toOption.map
        (fun e => e.definitions.map Definition.definition_text) = some [""] ∧
    (WordEntry.fromHtml blankDefPage).isOk = true :=
  ⟨rfl, rfl⟩

/-- C5 (amended): on success the word is non-empty provided the stripped
headword text contains at least one alphabetic, hyphen or apostrophe
character. -/
theorem claim5_word_nonempty_under_kept_char :
    ∀ soup e w, WordEntry.fromHtml soup = .ok e → findHeadword false soup = some w →
      (pyStrip (nodeText w)).data.any keepWordChar = true → e.word ≠ "" := by
  intro soup e w h hw hany
  obtain ⟨w', ms, hw', hm, rfl⟩ := fromHtml_ok_inv soup e h
  obtain rfl := Option.some.inj (hw.symm.trans hw')
  intro hcontr
  have hdata : (pyStrip (nodeText w)).data.filter keepWordChar = [] :=
    congrArg String.data hcontr
  obtain ⟨c, hc, hkeep⟩ := List.any_eq_true.mp hany
  have hmem : c ∈ (pyStrip (nodeText w)).data.filter keepWordChar :=
    List.mem_filter.mpr ⟨hc, hkeep⟩
  rw [hdata] at hmem
  exact absurd hmem (List.not_mem_nil c)

set_option maxHeartbeats 4000000 in
/-- Witness for C5 (amended) at the fixture page. -/
theorem claim5_witness : ("shrapnel" : String) ≠ "" :=
  claim5_word_nonempty_under_kept_char shrapnelPage
    ⟨"shrapnel",
     [⟨"1.", "A type of artillery shell", some ("1806", ""),
       [("1806", "The shells burst.", "Military Journal")], []⟩], ""⟩
    (el "span" ["headword"] [txt "shrapnel¹"]) rfl rfl rfl

/-- C5 counterexample: a headword consisting only of digits sanitizes to
the empty string, yet extraction succeeds — `word` is empty on success. -/
theorem claim5_counterexample :
    WordEntry.fromHtml digitHeadwordPage =
      Except.ok { word := "", definitions := [], etymology := "" } ∧
    (WordEntry.fromHtml digitHeadwordPage).isOk = true :=
  ⟨rfl, rfl⟩

set_option maxHeartbeats 4000000 in
/-- C7: on success the extracted word is exactly the stripped headword text
filtered to alphabetic characters, hyphens and apostrophes (so every other
character is stripped); in particular `"shrapnel¹"` sanitizes to
`"shrapnel"`, which the fixture page confirms end to end. -/
theorem claim7_headword_sanitization :
    (∀ soup e w, WordEntry.fromHtml soup = .ok e → findHeadword false soup = some w →
      e.word.data = (pyStrip (nodeText w)).data.filter keepWordChar ∧
      ∀ c ∈ e.word.data, keepWordChar c = true) ∧
    sanitizeWord "shrapnel¹" = "shrapnel" ∧
    (WordEntry.fromHtml shrapnelPage).toOption.map WordEntry.word = some "shrapnel" := by
  refine ⟨?_, by decide, rfl⟩
  intro soup e w h hw
  obtain ⟨w', ms, hw', hm, rfl⟩ := fromHtml_ok_inv soup e h
  obtain rfl := Option.some.inj (hw.symm.trans hw')
  refine ⟨rfl, ?_⟩
  intro c hc
  exact (List.mem_filter.mp hc).2

set_option maxHeartbeats 4000000 in
/-- Witness for C7 at the fixture page. -/
theorem claim7_witness :
    ("shrapnel" : String).data =
      (pyStrip (nodeText (el "span" ["headword"] [txt "shrapnel¹"]))).data.filter
        keepWordChar ∧
    ∀ c ∈ ("shrapnel" : String).data, keepWordChar c = true :=
  claim7_headword_sanitization.1 shrapnelPage
    ⟨"shrapnel",
     [⟨"1.", "A type of artillery shell", some ("1806", ""),
       [("1806", "The shells burst.", "Military Journal")], []⟩], ""⟩
    (el "span" ["headword"] [txt "shrapnel¹"]) rfl rfl

/-- Unfolding of `processElement` at an element node. -/
theorem processElement_elem (m : List (String × Node)) (nm : String) (idv : Option String)
    (cls : List String) (cs : List Node) :
    processElement m (.elem nm idv cls cs) =
      processElementList
        (if cls.contains "sense" then
          match findNameClass "div" "definition" (.elem nm idv cls cs) with
          | some def_div =>
            if (m.map Prod.fst).contains (pyStrip (nodeText def_div)) then m
            else m ++ [(pyStrip (nodeText def_div), .elem nm idv cls cs)]
          | none => m
        else m) cs := rfl

/-- Unfolding of `rawSenseKeys` at an element node. -/
theorem rawSenseKeys_elem (nm : String) (idv : Option String) (cls : List String)
    (cs : List Node) :
    rawSenseKeys (.elem nm idv cls cs) =
      (if cls.contains "sense" then
        match findNameClass "div" "definition" (.elem nm idv cls cs) with
        | some def_div => [pyStrip (nodeText def_div)]
        | none => []
      else []) ++ rawSenseKeysList cs := rfl

/-- One merging step. -/
theorem mergeKeys_cons (acc : List String) (k : String) (ks : List String) :
    mergeKeys acc (k :: ks) =
      if acc.contains k then mergeKeys acc ks else mergeKeys (acc ++ [k]) ks := rfl

/-- First-seen merging processes key blocks one after the other. -/
theorem mergeKeys_append (ks1 ks2 : List String) :
    ∀ acc, mergeKeys acc (ks1 ++ ks2) = mergeKeys (mergeKeys acc ks1) ks2 := by
  induction ks1 with
  | nil => intro acc; rfl
  | cons k ks ih =>
    intro acc
    rw [List.cons_append, mergeKeys_cons, mergeKeys_cons]
    by_cases h : acc.contains k
    · rw [if_pos h, if_pos h, ih]
    · rw [if_neg h, if_neg h, ih]

mutual

/-- The keys collected by `process_element` are exactly the first-seen
de-duplication of the document-order definition texts, appended after the
keys already present. -/
theorem processElement_keys (m : List (String × Node)) (n : Node) :
    (processElement m n).map Prod.fst = mergeKeys (m.map Prod.fst) (rawSenseKeys n) := by
  cases n with
  | text s => rfl
  | elem nm idv cls cs =>
    rw [processElement_elem, rawSenseKeys_elem, mergeKeys_append,
      processElementList_keys]
    congr 1
    by_cases hs : cls.contains "sense"
    · rw [if_pos hs, if_pos hs]
      cases hfind : findNameClass "div" "definition" (Node.elem nm idv cls cs) with
      | none => rfl
      | some dv =>
        show (if (m.map Prod.fst).contains (pyStrip (nodeText dv)) then m
              else m ++ [(pyStrip (nodeText dv), Node.elem nm idv cls cs)]).map Prod.fst =
          mergeKeys (m.map Prod.fst) [pyStrip (nodeText dv)]
        rw [mergeKeys_cons]
        by_cases hc : (m.map Prod.fst).contains (pyStrip (nodeText dv))
        · rw [if_pos hc, if_pos hc]
          rfl
        · rw [if_neg hc, if_neg hc]
          simp [mergeKeys]
    · rw [if_neg hs, if_neg hs]
      rfl

/-- List version of `processElement_keys`. -/
theorem processElementList_keys (m : List (String × Node)) (cs : List Node) :
    (processElementList m cs).map Prod.fst =
      mergeKeys (m.map Prod.fst) (rawSenseKeysList cs) := by
  cases cs with
  | nil => rfl
  | cons c cs =>
    show (processElementList (processElement m c) cs).map Prod.fst = _
    rw [processElementList_keys, processElement_keys,
      show rawSenseKeysList (c :: cs) = rawSenseKeys c ++ rawSenseKeysList cs from rfl,
      mergeKeys_append]

end

mutual

/-- Every entry of the definition map keys a node whose definition `div`
text is that key. -/
theorem processElement_inv (m : List (String × Node)) (n : Node)
    (h : ∀ p ∈ m, (findNameClass "div" "definition" p.2).map
      (fun dv => pyStrip (nodeText dv)) = some p.1) :
    ∀ p ∈ processElement m n, (findNameClass "div" "definition" p.2).map
      (fun dv => pyStrip (nodeText dv)) = some p.1 := by
  cases n with
  | text s => exact h
  | elem nm idv cls cs =>
    rw [processElement_elem]
    apply processElementList_inv
    by_cases hs : cls.contains "sense"
    · rw [if_pos hs]
      cases hfind : findNameClass "div" "definition" (Node.elem nm idv cls cs) with
      | none => exact h
      | some dv =>
        show ∀ p ∈ (if (m.map Prod.fst).contains (pyStrip (nodeText dv)) then m
            else m ++ [(pyStrip (nodeText dv), Node.elem nm idv cls cs)]),
          (findNameClass "div" "definition" p.2).map
            (fun dv => pyStrip (nodeText dv)) = some p.1
        by_cases hc : (m.map Prod.fst).contains (pyStrip (nodeText dv))
        · rw [if_pos hc]
          exact h
        · rw [if_neg hc]
          intro p hp
          rcases List.mem_append.mp hp with hp1 | hp2
          · exact h p hp1
          · have hpe : p = (pyStrip (nodeText dv), Node.elem nm idv cls cs) := by
              simpa using hp2
            subst hpe
            rw [hfind]
            rfl
    · rw [if_neg hs]
      exact h

/-- List version of `processElement_inv`. -/
theorem processElementList_inv (m : List (String × Node)) (cs : List Node)
    (h : ∀ p ∈ m, (findNameClass "div" "definition" p.2).map
      (fun dv => pyStrip (nodeText dv)) = some p.1) :
    ∀ p ∈ processElementList m cs, (findNameClass "div" "definition" p.2).map
      (fun dv => pyStrip (nodeText dv)) = some p.1 := by
  cases cs with
  | nil => exact h
  | cons c cs =>
    show ∀ p ∈ processElementList (processElement m c) cs, _
    exact processElementList_inv _ cs (processElement_inv m c h)

end

/-- A key of the map looks up to a node paired with it in the map. -/
theorem mapLookup_mem (m : List (String × Node)) (t : String) (h : t ∈ m.map Prod.fst) :
    ∃ nd, mapLookup m t = some nd ∧ (t, nd) ∈ m := by
  induction m with
  | nil => simp at h
  | cons p m ih =>
    by_cases hp : p.1 = t
    · refine ⟨p.2, ?_, ?_⟩
      · unfold mapLookup
        rw [List.find?_cons_of_pos _ (by simp [hp])]
        rfl
      · subst hp
        exact List.mem_cons_self _ _
    · have ht : t ∈ m.map Prod.fst := by
        rw [List.map_cons] at h
        rcases List.mem_cons.mp h with h1 | h2
        · exact absurd h1.symm hp
        · exact h2
      obtain ⟨nd, hnd, hmem⟩ := ih ht
      refine ⟨nd, ?_, List.mem_cons_of_mem _ hmem⟩
      unfold mapLookup at hnd ⊢
      rw [List.find?_cons_of_neg _ (by simp [hp])]
      exact hnd

/-- A sense whose definition `div` is found extracts to a `Definition`
whose text is that `div`'s stripped text. -/
theorem getDef_of_key (nd dv : Node) (hfind : findNameClass "div" "definition" nd = some dv) :
    ∃ d, getDefinitionFromSense nd = some d ∧ d.definition_text = pyStrip (nodeText dv) := by
  unfold getDefinitionFromSense
  rw [hfind]
  exact ⟨_, rfl, rfl⟩

/-- Looking up a list of map keys and extracting a `Definition` from each
reproduces the key list as the definition texts. -/
theorem filterMap_defs (m : List (String × Node))
    (hinv : ∀ p ∈ m, (findNameClass "div" "definition" p.2).map
      (fun dv => pyStrip (nodeText dv)) = some p.1) :
    ∀ l : List String, (∀ t ∈ l, t ∈ m.map Prod.fst) →
      (l.filterMap (fun t => (mapLookup m t).bind getDefinitionFromSense)).map
        Definition.definition_text = l := by
  intro l
  induction l with
  | nil => intro _; rfl
  | cons t l ih =>
    intro hl
    obtain ⟨nd, hnd, hmem⟩ := mapLookup_mem m t (hl t (List.mem_cons_self t l))
    have hk := hinv (t, nd) hmem
    cases hfind : findNameClass "div" "definition" nd with
    | none =>
      rw [hfind] at hk
      exact absurd hk (by simp)
    | some dv =>
      rw [hfind] at hk
      have ht : pyStrip (nodeText dv) = t := by simpa using hk
      obtain ⟨d, hd, hdt⟩ := getDef_of_key nd dv hfind
      have hstep : List.filterMap (fun u => (mapLookup m u).bind getDefinitionFromSense)
          (t :: l) =
          d :: List.filterMap (fun u => (mapLookup m u).bind getDefinitionFromSense) l :=
        List.filterMap_cons_some (by
          show (mapLookup m t).bind getDefinitionFromSense = some d
          rw [hnd]
          exact hd)
      rw [hstep, List.map_cons, hdt, ht,
        ih (fun u hu => hl u (List.mem_cons_of_mem _ hu))]

/-- Python string comparison is asymmetric. -/
theorem charsLt_asymm : ∀ x y, charsLt x y = true → charsLt y x = false := by
  intro x
  induction x with
  | nil =>
    intro y h
    cases y with
    | nil => exact absurd h (by simp [charsLt])
    | cons b bs => rfl
  | cons a as ih =>
    intro y h
    cases y with
    | nil => exact absurd h (by simp [charsLt])
    | cons b bs =>
      unfold charsLt at h ⊢
      by_cases h1 : a.toNat < b.toNat
      · rw [if_neg (by omega), if_pos h1]
      · by_cases h2 : b.toNat < a.toNat
        · rw [if_neg h1, if_pos h2] at h
          exact absurd h (by simp)
        · rw [if_neg h1, if_neg h2] at h
          rw [if_neg h2, if_neg h1]
          exact ih bs h

/-- Python string comparison is asymmetric. -/
theorem strLt_asymm (s t : String) : strLt s t = true → strLt t s = false :=
  charsLt_asymm s.data t.data

/-- Inserting into a non-descending chain keeps it non-descending. -/
theorem chain_insertAsc (s : String) :
    ∀ l, List.Chain' (fun a b => strLt b a = false) l →
      List.Chain' (fun a b => strLt b a = false) (insertAsc s l) := by
  intro l
  induction l with
  | nil => intro _; simp [insertAsc]
  | cons t ts ih =>
    intro hc
    unfold insertAsc
    by_cases h : strLt t s = true
    · rw [if_pos h]
      rw [List.chain'_cons']
      refine ⟨?_, ih hc.tail⟩
      intro y hy
      cases ts with
      | nil =>
        simp [insertAsc] at hy
        subst hy
        exact strLt_asymm t s h
      | cons u us =>
        unfold insertAsc at hy
        by_cases h2 : strLt u s = true
        · rw [if_pos h2] at hy
          simp at hy
          subst hy
          exact (List.chain'_cons.mp hc).1
        · rw [if_neg h2] at hy
          simp at hy
          subst hy
          exact strLt_asymm t s h
    · rw [if_neg h]
      refine List.chain'_cons.mpr ⟨?_, hc⟩
      exact Bool.eq_false_iff.mpr h

/-- `sortStrings` produces a non-descending chain. -/
theorem chain_sortStrings : ∀ l, List.Chain' (fun a b => strLt b a = false) (sortStrings l) := by
  intro l
  induction l with
  | nil => simp [sortStrings]
  | cons s ss ih => exact chain_insertAsc s _ ih

/-- Insertion introduces no new elements. -/
theorem mem_insertAsc {y s : String} : ∀ {l}, y ∈ insertAsc s l → y = s ∨ y ∈ l := by
  intro l
  induction l with
  | nil =>
    intro h
    simp [insertAsc] at h
    exact Or.inl h
  | cons t ts ih =>
    intro h
    unfold insertAsc at h
    by_cases hts : strLt t s = true
    · rw [if_pos hts] at h
      rcases List.mem_cons.mp h with h1 | h2
      · exact Or.inr (h1 ▸ List.mem_cons_self t ts)
      · rcases ih h2 with h3 | h4
        · exact Or.inl h3
        · exact Or.inr (List.mem_cons_of_mem t h4)
    · rw [if_neg hts] at h
      rcases List.mem_cons.mp h with h1 | h2
      · exact Or.inl h1
      · exact Or.inr h2

/-- Sorting introduces no new elements. -/
theorem mem_sortStrings {t : String} : ∀ {l}, t ∈ sortStrings l → t ∈ l := by
  intro l
  induction l with
  | nil =>
    intro h
    simp [sortStrings] at h
  | cons s ss ih =>
    intro h
    rcases mem_insertAsc h with h1 | h2
    · exact h1 ▸ List.mem_cons_self s ss
    · exact List.mem_cons_of_mem s (ih h2)

/-- C1 (amended): the definition texts of a successful extraction are the
first-seen de-duplicated document-order definition texts of the meanings
section reordered into ascending code-point lexicographic order — not kept
in document order. -/
theorem claim1_definitions_lexicographic :
    ∀ soup e ms, WordEntry.fromHtml soup = .ok e →
      findNameId "section" "meaning_and_use" soup = some ms →
      e.definitions.map Definition.definition_text = sortStrings (docOrderKeys ms) ∧
      List.Chain' (fun a b => strLt b a = false)
        (e.definitions.map Definition.definition_text) := by
  intro soup e ms h hms
  obtain ⟨w, ms', hw, hm, rfl⟩ := fromHtml_ok_inv soup e h
  obtain rfl := Option.some.inj (hms.symm.trans hm)
  have hinv : ∀ p ∈ processElement [] ms, (findNameClass "div" "definition" p.2).map
      (fun dv => pyStrip (nodeText dv)) = some p.1 :=
    processElement_inv [] ms (by intro p hp; simp at hp)
  have hkeys : (processElement [] ms).map Prod.fst = docOrderKeys ms := by
    rw [processElement_keys]
    rfl
  have hmain := filterMap_defs (processElement [] ms) hinv
    (sortStrings ((processElement [] ms).map Prod.fst))
    (fun t ht => mem_sortStrings ht)
  constructor
  · exact hmain.trans (congrArg sortStrings hkeys)
  · exact hmain.symm ▸ chain_sortStrings ((processElement [] ms).map Prod.fst)

/-- Witness for C1 (amended) at the two-sense page. -/
theorem claim1_witness :
    ([(⟨"2.", "apple", none, [], []⟩ : Definition), ⟨"1.", "zebra", none, [], []⟩].map
        Definition.definition_text = sortStrings (docOrderKeys twoSenseMeaning)) ∧
    List.Chain' (fun a b => strLt b a = false)
      ([(⟨"2.", "apple", none, [], []⟩ : Definition), ⟨"1.", "zebra", none, [], []⟩].map
        Definition.definition_text) :=
  claim1_definitions_lexicographic twoSensePage
    ⟨"word", [⟨"2.", "apple", none, [], []⟩, ⟨"1.", "zebra", none, [], []⟩], ""⟩
    twoSenseMeaning rfl rfl

/-- C1 counterexample: on a page whose senses read "zebra" then "apple" in
document order, extraction returns the definitions re-sorted by definition
text ("apple" first), so the first `Definition` does not come from the
first-seen sense. -/
theorem claim1_counterexample :
    (WordEntry.fromHtml twoSensePage).toOption.map
        (fun e => e.definitions.map Definition.definition_text) = some ["apple", "zebra"] ∧
    docOrderKeys twoSenseMeaning = ["zebra", "apple"] ∧
    (["apple", "zebra"] : List String) ≠ ["zebra", "apple"] :=
  ⟨rfl, rfl, by decide⟩

end WordOfTheDay
